import Mathlib

/-!
Shallow embedding of the LC-3 virtual machine in `src/main.c` (repository
`wulfgarpro/lc3vm`), together with theorems settling the specification
claims about it.

Machine words are modelled as `Nat` with explicit reduction modulo 2^16
wherever the C code stores into a `uint16_t` object, so that the wraparound
of fixed-width arithmetic is visible in the definitions.  The C globals
`memory` and `reg` become the fields of a `Machine` record; every C function
that mutates them becomes a state-passing function.
-/

namespace LC3

/-- MEMORY_MAX from main.c: 1 <<< 16 memory locations. -/
def MEMORY_MAX : Nat := 65536

/-- FL_POS = 1 <<< 0. -/
def FL_POS : Nat := 1

/-- FL_ZRO = 1 <<< 1. -/
def FL_ZRO : Nat := 2

/-- FL_NEG = 1 <<< 2. -/
def FL_NEG : Nat := 4

/-- Index of the program counter in the register file (R_PC). -/
def R_PC : Nat := 8

/-- Index of the condition-flag register in the register file (R_COND). -/
def R_COND : Nat := 9

/-- The mutable globals of main.c: the register file `uint16_t reg[R_COUNT]`
(indices 0..9), the word array `uint16_t memory[MEMORY_MAX]`, and the
`running` variable of the execution loop in `main`. -/
structure Machine where
  reg : Nat → Nat
  memory : Nat → Nat
  running : Bool

/-- Store into a register: the C assignment `reg[r] = v` on a `uint16_t`
array truncates the assigned value to 16 bits. -/
def writeReg (s : Machine) (r v : Nat) : Machine :=
  { s with reg := fun i => if i = r then v % 65536 else s.reg i }

/-- main.c line 72: `uint16_t mem_read(uint16_t addr) ... return 0;` — the
function body is a stub that ignores both the address and the memory array
and always returns 0. -/
def mem_read (s : Machine) (addr : Nat) : Nat := 0

/-- main.c lines 74-82: `update_flags`.  Sets R_COND to FL_ZRO when the
register is zero, to FL_NEG when `reg[r] >> 15` is nonzero (C truthiness of
the shifted value), and to FL_POS otherwise. -/
def update_flags (s : Machine) (r : Nat) : Machine :=
  if s.reg r = 0 then writeReg s R_COND FL_ZRO
  else if s.reg r >>> 15 ≠ 0 then writeReg s R_COND FL_NEG
  else writeReg s R_COND FL_POS

/-- main.c lines 85-93: `sign_extend`.  The parameter is a `uint16_t`, hence
the entry reduction modulo 2^16; the `x |= 0xFFFF << bit_count` assignment
is an `int` computation truncated back to `uint16_t`, hence the final
reduction modulo 2^16 in that branch. -/
def sign_extend (x : Nat) (bit_count : Nat) : Nat :=
  let x1 := x % 65536
  if (x1 >>> (bit_count - 1)) &&& 1 = 1 then
    (x1 ||| (0xFFFF <<< bit_count)) % 65536
  else x1

/-- main.c lines 97-113: `op_add`.  Field extraction is local: DR is bits
11-9, SR1 bits 8-6, the immediate flag bit 5; in immediate mode the low five
bits are sign extended, otherwise SR2 is bits 2-0.  The sum is stored with
`uint16_t` truncation and the flags are then updated from DR. -/
def op_add (s : Machine) (instr : Nat) : Machine :=
  let dr := (instr >>> 9) &&& 7
  let sr1 := (instr >>> 6) &&& 7
  let imm_mode := (instr >>> 5) &&& 1
  let s1 :=
    if imm_mode = 1 then
      let imm5 := sign_extend (instr &&& 0x1F) 5
      writeReg s dr (s.reg sr1 + imm5)
    else
      let sr2 := instr &&& 7
      writeReg s dr (s.reg sr1 + s.reg sr2)
  update_flags s1 dr

/-- main.c lines 116-127: `op_ldi`.  DR is bits 11-9, the nine-bit offset is
sign extended, and the stored value is `mem_read(mem_read(reg[R_PC] +
pc_offset))`; the argument of the outer call is passed as a `uint16_t`,
hence the reduction modulo 2^16.  Flags are then updated from DR. -/
def op_ldi (s : Machine) (instr : Nat) : Machine :=
  let dr := (instr >>> 9) &&& 7
  let pc_offset := sign_extend (instr &&& 0x1FF) 9
  let s1 := writeReg s dr (mem_read s (mem_read s ((s.reg R_PC + pc_offset) % 65536)))
  update_flags s1 dr

/-- main.c lines 129-132: `swap16` exchanges the two bytes of a `uint16_t`. -/
def swap16 (x : Nat) : Nat :=
  let x1 := x % 65536
  ((x1 <<< 8) ||| (x1 >>> 8)) % 65536

/-- The effect of `fread(start, sizeof(uint16_t), n, file)` on the memory
array: the words are stored consecutively from `start`, each truncated to
16 bits. -/
def store_words : (Nat → Nat) → Nat → List Nat → (Nat → Nat)
  | mem, _, [] => mem
  | mem, start, w :: ws =>
      store_words (fun a => if a = start then w % 65536 else mem a) (start + 1) ws

/-- main.c lines 146-148: the byte-swapping loop
`while (read-- > 0) start[read] = swap16(start[read]);` — it walks the
loaded words from the highest index down to 0, swapping each in place. -/
def swap_loop : (Nat → Nat) → Nat → Nat → (Nat → Nat)
  | mem, _, 0 => mem
  | mem, start, r + 1 =>
      swap_loop (fun a => if a = start + r then swap16 (mem (start + r)) else mem a) start r

/-- main.c lines 134-149: `read_prog_file`.  The program image is modelled
as the list of 16-bit words of the file in file order (big endian, so each
word is byte swapped before use).  The first word gives the origin (an empty
file leaves the zero-initialised `origin` variable untouched, which the
`headD 0` default reproduces).  `uint16_t max_read = MEMORY_MAX - origin`
truncates the `int` difference to 16 bits, hence the reduction modulo 2^16.
`fread` then stores `min (number of remaining words) max_read` words at
`memory + origin` and the swap loop byte swaps them in place. -/
def read_prog_file (mem : Nat → Nat) (file : List Nat) : Nat → Nat :=
  let origin := swap16 (file.headD 0)
  let ws := file.tail
  let max_read := (MEMORY_MAX - origin) % 65536
  let cnt := min ws.length max_read
  swap_loop (store_words mem origin (ws.take cnt)) origin cnt

/-- The zero-initialised globals: C gives static arrays and `running` its
initial values before `main` runs (`running` is set to TRUE at line 176). -/
def zero_machine : Machine :=
  { reg := fun _ => 0, memory := fun _ => 0, running := true }

/-- main.c lines 168-174 of `main`: load the program image into memory, then
`reg[R_COND] = FL_ZRO;` and `reg[R_PC] = 0x3000;`, in that order. -/
def machine_init (s : Machine) (file : List Nat) : Machine :=
  let s1 : Machine := { s with memory := read_prog_file s.memory file }
  let s2 := writeReg s1 R_COND FL_ZRO
  writeReg s2 R_PC 0x3000

/-- main.c lines 179-218: the `switch (op)` of the execution loop.  Only
OP_ADD (1) and OP_LDI (10) call a handler; every other case — including
OP_RTI (8), OP_RES (13) and the default — is an empty `break`, so the state
is returned unchanged and `running` is never modified. -/
def dispatch (s : Machine) (instr : Nat) : Machine :=
  match instr >>> 12 with
  | 1 => op_add s instr
  | 10 => op_ldi s instr
  | _ => s

/-- main.c lines 177-218: one iteration of the execution loop.
`uint16_t instr = mem_read(reg[R_PC]++);` fetches at the old program
counter, then increments it (with `uint16_t` wraparound) before the switch
dispatches on bits 15-12 of the fetched word. -/
def exec_step (s : Machine) : Machine :=
  let instr := mem_read s (s.reg R_PC)
  let s1 := writeReg s R_PC (s.reg R_PC + 1)
  dispatch s1 instr

/-- Modelled from the spec: the mathematically correct twos-complement sign
extension to 16 bits of the low `w` bits of `v` — bits `w-1 .. 0` of the
result equal the low bits of `v`, and bits `15 .. w` are all 1 exactly when
bit `w-1` of `v` is 1 (spec sections 4.1 and 8).  Used as the comparison
point for the `sign_extend` claims. -/
def sign_extend_spec (v w : Nat) : Nat :=
  let low := v % 2 ^ w
  if low.testBit (w - 1) then low + (2 ^ 16 - 2 ^ w) else low

/-- Modelled from the spec: the condition flag the spec assigns to a 16-bit
value (spec section 4.3): ZERO for 0, NEGATIVE when bit 15 is set, POSITIVE
otherwise. -/
def flag_of (v : Nat) : Nat :=
  if v = 0 then FL_ZRO else if v.testBit 15 then FL_NEG else FL_POS

/-- Modelled from the spec: the value the ADD row of the opcode table
assigns to DR — SR1 plus either the sign-extended five-bit immediate or
SR2, modulo 2^16 (spec section 4.5). -/
def add_spec_result (s : Machine) (instr : Nat) : Nat :=
  if (instr >>> 5) &&& 1 = 1 then
    (s.reg ((instr >>> 6) &&& 7) + sign_extend_spec instr 5) % 65536
  else
    (s.reg ((instr >>> 6) &&& 7) + s.reg (instr &&& 7)) % 65536

/-- Concrete machine for the ADD example of spec section 8: R1 holds 5. -/
def add_state : Machine :=
  { reg := fun i => if i = 1 then 5 else 0, memory := fun _ => 0, running := true }

/-- Concrete machine for the LDI example of spec section 8: PC is 0x3000,
memory holds 0x4000 at 0x3001 and 0x1234 at 0x4000. -/
def ldi_state : Machine :=
  { reg := fun i => if i = 8 then 0x3000 else 0,
    memory := fun a => if a = 0x3001 then 0x4000 else if a = 0x4000 then 0x1234 else 0,
    running := true }

/-- Concrete machine with a nonzero stored word at an ordinary (non-device)
address, for the `mem_read` claim. -/
def mem_state : Machine :=
  { reg := fun _ => 0, memory := fun a => if a = 0x3000 then 0x1234 else 0,
    running := true }

/-- Concrete machine for the JSR ordering example of spec section 8:
PC is 0x3000 and R7 is 0. -/
def jsr_state : Machine :=
  { reg := fun i => if i = 8 then 0x3000 else 0, memory := fun _ => 0, running := true }

/-- Concrete machine whose register 3 holds 0x8000, for the `update_flags`
claim. -/
def cond_state : Machine :=
  { reg := fun i => if i = 3 then 0x8000 else 0, memory := fun _ => 0, running := true }

-- ------------------------------------------------------------------
-- Helper lemmas
-- ------------------------------------------------------------------

theorem writeReg_same (s : Machine) (r v : Nat) : (writeReg s r v).reg r = v % 65536 := by
  simp [writeReg]

theorem writeReg_other (s : Machine) (r v i : Nat) (h : i ≠ r) :
    (writeReg s r v).reg i = s.reg i := by
  simp [writeReg, h]

theorem writeReg_memory (s : Machine) (r v : Nat) : (writeReg s r v).memory = s.memory := rfl

theorem update_flags_reg (s : Machine) (r i : Nat) (h : i ≠ R_COND) :
    (update_flags s r).reg i = s.reg i := by
  unfold update_flags
  split
  · exact writeReg_other s R_COND FL_ZRO i h
  · split
    · exact writeReg_other s R_COND FL_NEG i h
    · exact writeReg_other s R_COND FL_POS i h

theorem update_flags_memory (s : Machine) (r : Nat) :
    (update_flags s r).memory = s.memory := by
  unfold update_flags
  split
  · rfl
  · split <;> rfl

-- Bit 15 of a 16-bit value is set exactly when the value shifted right by
-- 15 is nonzero.
theorem shiftRight15_ne_iff (v : Nat) (h : v < 65536) :
    v >>> 15 ≠ 0 ↔ v.testBit 15 = true := by
  rw [Nat.testBit_to_div_mod, Nat.shiftRight_eq_div_pow, decide_eq_true_eq]
  have h2 : (2 : Nat) ^ 15 = 32768 := by norm_num
  rw [h2]
  omega

-- update_flags stores in R_COND exactly the flag the spec assigns to the
-- current value of register r.
theorem update_flags_cond (s : Machine) (r : Nat) (h : s.reg r < 65536) :
    (update_flags s r).reg R_COND = flag_of (s.reg r) := by
  unfold update_flags flag_of
  by_cases h0 : s.reg r = 0
  · rw [if_pos h0, if_pos h0, writeReg_same]
    rfl
  · rw [if_neg h0, if_neg h0]
    by_cases h15 : s.reg r >>> 15 ≠ 0
    · rw [if_pos h15, writeReg_same, if_pos ((shiftRight15_ne_iff _ h).mp h15)]
      rfl
    · have hb : ¬ (s.reg r).testBit 15 = true := fun hc =>
        h15 ((shiftRight15_ne_iff _ h).mpr hc)
      rw [if_neg h15, writeReg_same, if_neg hb]
      rfl

-- The C sign_extend agrees with the mathematical sign extension on every
-- input that fits in the given width, for every width up to 16.
theorem sign_extend_eq_spec (w v : Nat) (hw2 : w ≤ 16)
    (hv : v < 2 ^ w) : sign_extend v w = sign_extend_spec v w := by
  have hpow : (2 : Nat) ^ w ≤ 2 ^ 16 := Nat.pow_le_pow_right (by norm_num) hw2
  have hv16 : v < 65536 := by
    have : (2 : Nat) ^ 16 = 65536 := by norm_num
    omega
  unfold sign_extend sign_extend_spec
  simp only [Nat.mod_eq_of_lt hv16, Nat.mod_eq_of_lt hv]
  have hcond : ((v >>> (w - 1)) &&& 1 = 1) ↔ v.testBit (w - 1) = true := by
    rw [Nat.and_one_is_mod, Nat.shiftRight_eq_div_pow, Nat.testBit_to_div_mod,
      decide_eq_true_eq]
  by_cases h : v.testBit (w - 1) = true
  · rw [if_pos (hcond.mpr h), if_pos h]
    rw [Nat.lor_comm, Nat.shiftLeft_eq, Nat.mul_comm, ← Nat.mul_add_lt_is_or hv]
    have h16 : (2 : Nat) ^ 16 = 65536 := by norm_num
    rw [h16] at hpow ⊢
    have h2 : (2 : Nat) ^ w ≥ 1 := Nat.one_le_two_pow
    generalize hp : (2 : Nat) ^ w = p at hv hpow h2 ⊢
    omega
  · rw [if_neg (fun hc => h (hcond.mp hc)), if_neg h]

-- Reading through the bit mask: sign extending the masked low five bits, as
-- op_add does, computes the mathematical five-bit sign extension of the
-- instruction word.
theorem sign_extend_and31 (x : Nat) :
    sign_extend (x &&& 31) 5 = sign_extend_spec x 5 := by
  have h31 : x &&& 31 = x % 32 := by
    have h := Nat.and_pow_two_sub_one_eq_mod x 5
    norm_num at h
    exact h
  have h32 : x % 32 < 2 ^ 5 := by omega
  rw [h31, sign_extend_eq_spec 5 (x % 32) (by norm_num) h32]
  unfold sign_extend_spec
  have hmm : x % 32 % 2 ^ 5 = x % 2 ^ 5 := by omega
  rw [hmm]

-- ------------------------------------------------------------------
-- C1: sign_extend
-- ------------------------------------------------------------------

/-- C1 as stated is false: `sign_extend` never clears bits above
`bit_count`, so a 16-bit value with garbage above the field and a clear
sign bit is returned unchanged instead of being reduced to the sign
extension of its low bits.  Witness input: value 32 = 0b100000, width 5;
the low five bits are 0, whose sign extension is 0, but the code returns
32. -/
theorem sign_extend_counterexample :
    sign_extend 32 5 = 32 ∧ sign_extend_spec 32 5 = 0 ∧
    sign_extend 32 5 ≠ sign_extend_spec 32 5 := by decide

/-- C1 (amended): for every bit_count in 5, 6, 9, 11 and every value whose
bits above bit_count-1 are zero (every call site of `sign_extend` masks its
argument down to the field first), the result is the mathematically correct
twos-complement sign extension of the low bit_count bits to 16 bits. -/
theorem sign_extend_correct (w v : Nat) (hw : w = 5 ∨ w = 6 ∨ w = 9 ∨ w = 11)
    (hv : v < 2 ^ w) : sign_extend v w = sign_extend_spec v w := by
  rcases hw with rfl | rfl | rfl | rfl <;>
    exact sign_extend_eq_spec _ _ (by norm_num) hv

/-- Witness for C1 (amended): width 5, value 0b10001 gives 0xFFF1, matching
the spec example. -/
theorem sign_extend_correct_witness :
    sign_extend 17 5 = sign_extend_spec 17 5 ∧ sign_extend_spec 17 5 = 0xFFF1 :=
  ⟨sign_extend_correct 5 17 (by norm_num) (by norm_num), by decide⟩

-- ------------------------------------------------------------------
-- C2: update_flags
-- ------------------------------------------------------------------

/-- C2: for every register index r in 0..7 and every machine state whose
register r holds a 16-bit value v, after `update_flags r` the condition-flag
register holds FL_ZRO iff v = 0, FL_NEG iff v is nonzero with bit 15 set,
and FL_POS iff v is nonzero with bit 15 clear — exactly one of the three. -/
theorem update_flags_correct (s : Machine) (r : Nat) (hr : r < 8)
    (h : s.reg r < 65536) :
    ((update_flags s r).reg R_COND = FL_ZRO ↔ s.reg r = 0) ∧
    ((update_flags s r).reg R_COND = FL_NEG ↔
      s.reg r ≠ 0 ∧ (s.reg r).testBit 15 = true) ∧
    ((update_flags s r).reg R_COND = FL_POS ↔
      s.reg r ≠ 0 ∧ (s.reg r).testBit 15 = false) := by
  rw [update_flags_cond s r h]
  unfold flag_of FL_ZRO FL_NEG FL_POS
  by_cases h0 : s.reg r = 0
  · simp [h0]
  · by_cases h15 : (s.reg r).testBit 15
    · simp [h0, h15]
    · simp [h0, h15]

/-- Witness for C2 at register 3 of a machine whose R3 holds 0x8000 (the
NEGATIVE case of the spec table). -/
theorem update_flags_correct_witness :
    ((update_flags cond_state 3).reg R_COND = FL_ZRO ↔ cond_state.reg 3 = 0) ∧
    ((update_flags cond_state 3).reg R_COND = FL_NEG ↔
      cond_state.reg 3 ≠ 0 ∧ (cond_state.reg 3).testBit 15 = true) ∧
    ((update_flags cond_state 3).reg R_COND = FL_POS ↔
      cond_state.reg 3 ≠ 0 ∧ (cond_state.reg 3).testBit 15 = false) :=
  update_flags_correct cond_state 3 (by norm_num) (by decide)

-- ------------------------------------------------------------------
-- C3: op_add
-- ------------------------------------------------------------------

/-- C3: for every machine state and instruction word with opcode ADD, the
destination register (bits 11-9) receives SR1 plus either the sign-extended
five-bit immediate (bit 5 set) or SR2 (bit 5 clear), modulo 2^16, and
R_COND is then set to the flag of that new value. -/
theorem op_add_correct (s : Machine) (instr : Nat) (hop : instr >>> 12 = 1) :
    (op_add s instr).reg ((instr >>> 9) &&& 7) = add_spec_result s instr ∧
    (op_add s instr).reg R_COND = flag_of (add_spec_result s instr) := by
  simp only [op_add, add_spec_result]
  have hdr : (instr >>> 9) &&& 7 ≤ 7 := Nat.and_le_right
  have hne : (instr >>> 9) &&& 7 ≠ R_COND := by
    unfold R_COND
    omega
  by_cases him : (instr >>> 5) &&& 1 = 1
  · rw [if_pos him, if_pos him, sign_extend_and31]
    constructor
    · rw [update_flags_reg _ _ _ hne, writeReg_same]
    · rw [update_flags_cond _ _ (by rw [writeReg_same]; omega), writeReg_same]
  · rw [if_neg him, if_neg him]
    constructor
    · rw [update_flags_reg _ _ _ hne, writeReg_same]
    · rw [update_flags_cond _ _ (by rw [writeReg_same]; omega), writeReg_same]

/-- Witness for C3 at the spec example: instruction 0x107F is ADD with
DR = R0, SR1 = R1, immediate mode, imm5 = 0b11111; with R1 holding 5 the
result is 4 and the flag is POSITIVE. -/
theorem op_add_correct_witness :
    (op_add add_state 0x107F).reg ((0x107F >>> 9) &&& 7) = 4 ∧
    (op_add add_state 0x107F).reg R_COND = FL_POS := by
  have h := op_add_correct add_state 0x107F (by decide)
  constructor
  · rw [h.1]
    decide
  · rw [h.2]
    decide

-- ------------------------------------------------------------------
-- C9: initial PC and flag
-- ------------------------------------------------------------------

/-- C9: whatever the program image contains (any word list, any origin),
after loading and the two initialising stores of `main` the program counter
is 0x3000 and the condition-flag register is FL_ZRO. -/
theorem machine_init_pc_cond (file : List Nat) :
    (machine_init zero_machine file).reg R_PC = 0x3000 ∧
    (machine_init zero_machine file).reg R_COND = FL_ZRO :=
  ⟨rfl, rfl⟩

-- ------------------------------------------------------------------
-- C10: frame of op_add and op_ldi
-- ------------------------------------------------------------------

/-- C10: the two implemented handlers write at most the destination
register (bits 11-9) and the condition-flag register: every other register
slot — in particular the program counter — and the whole memory array are
unchanged. -/
theorem handlers_frame (s : Machine) (instr : Nat) :
    (∀ i, i ≠ (instr >>> 9) &&& 7 → i ≠ R_COND → (op_add s instr).reg i = s.reg i) ∧
    (op_add s instr).reg R_PC = s.reg R_PC ∧
    (op_add s instr).memory = s.memory ∧
    (∀ i, i ≠ (instr >>> 9) &&& 7 → i ≠ R_COND → (op_ldi s instr).reg i = s.reg i) ∧
    (op_ldi s instr).reg R_PC = s.reg R_PC ∧
    (op_ldi s instr).memory = s.memory := by
  have hdr : (instr >>> 9) &&& 7 ≤ 7 := Nat.and_le_right
  have hadd : ∀ i, i ≠ (instr >>> 9) &&& 7 → i ≠ R_COND →
      (op_add s instr).reg i = s.reg i := by
    intro i hi hc
    simp only [op_add]
    by_cases him : (instr >>> 5) &&& 1 = 1
    · rw [if_pos him, update_flags_reg _ _ _ hc, writeReg_other _ _ _ _ hi]
    · rw [if_neg him, update_flags_reg _ _ _ hc, writeReg_other _ _ _ _ hi]
  have hldi : ∀ i, i ≠ (instr >>> 9) &&& 7 → i ≠ R_COND →
      (op_ldi s instr).reg i = s.reg i := by
    intro i hi hc
    simp only [op_ldi]
    rw [update_flags_reg _ _ _ hc, writeReg_other _ _ _ _ hi]
  have hpc : R_PC ≠ (instr >>> 9) &&& 7 := by
    unfold R_PC
    omega
  have hpcc : R_PC ≠ R_COND := by
    unfold R_PC R_COND
    omega
  refine ⟨hadd, hadd R_PC hpc hpcc, ?_, hldi, hldi R_PC hpc hpcc, ?_⟩
  · simp only [op_add]
    by_cases him : (instr >>> 5) &&& 1 = 1
    · rw [if_pos him, update_flags_memory, writeReg_memory]
    · rw [if_neg him, update_flags_memory, writeReg_memory]
  · simp only [op_ldi]
    rw [update_flags_memory, writeReg_memory]

/-- Witness for C10: on the concrete ADD and LDI examples, register R3 (not
the destination of either) and a concrete memory cell are untouched. -/
theorem handlers_frame_witness :
    (op_add add_state 0x107F).reg 3 = add_state.reg 3 ∧
    (op_ldi ldi_state 0xA401).reg 3 = ldi_state.reg 3 ∧
    (op_ldi ldi_state 0xA401).memory 0x4000 = ldi_state.memory 0x4000 := by
  have h1 := handlers_frame add_state 0x107F
  have h2 := handlers_frame ldi_state 0xA401
  exact ⟨h1.1 3 (by decide) (by decide), h2.2.2.2.1 3 (by decide) (by decide),
    by rw [h2.2.2.2.2.2]⟩

-- ------------------------------------------------------------------
-- C4, C7: the mem_read stub
-- ------------------------------------------------------------------

/-- C7: evidence that `mem_read` does not return the stored word.  Address
0x3000 is an ordinary address (no device register address is even defined in
main.c), the memory array holds 0x1234 there, yet `mem_read` returns 0. -/
theorem mem_read_stub_bug :
    mem_read mem_state 0x3000 = 0 ∧ mem_state.memory 0x3000 = 0x1234 ∧
    mem_read mem_state 0x3000 ≠ mem_state.memory 0x3000 := by decide

/-- C4: evidence on the spec example.  With PC = 0x3000,
memory[0x3001] = 0x4000, memory[0x4000] = 0x1234 and instruction 0xA401
(LDI, DR = R2, offset +1), the claim demands R2 = 0x1234; because `op_ldi`
goes through the `mem_read` stub, R2 actually becomes 0 and the flag becomes
FL_ZRO. -/
theorem op_ldi_stub_bug :
    (op_ldi ldi_state 0xA401).reg 2 = 0 ∧
    ldi_state.memory 0x3001 = 0x4000 ∧ ldi_state.memory 0x4000 = 0x1234 ∧
    (op_ldi ldi_state 0xA401).reg 2 ≠ 0x1234 ∧
    (op_ldi ldi_state 0xA401).reg R_COND = FL_ZRO := by decide

-- ------------------------------------------------------------------
-- C5: reserved opcodes are silent no-ops in the dispatcher
-- ------------------------------------------------------------------

/-- C5: evidence that the dispatcher treats the reserved opcodes 8 (RTI)
and 13 as silent no-ops.  Dispatching the words 0x8000 and 0xD000 returns
the machine state completely unchanged, with `running` still true, so the
execution loop continues; no fault of any kind is raised. -/
theorem illegal_opcode_noop :
    dispatch zero_machine 0xD000 = zero_machine ∧
    dispatch zero_machine 0x8000 = zero_machine ∧
    (dispatch zero_machine 0xD000).running = true :=
  ⟨rfl, rfl, rfl⟩

-- ------------------------------------------------------------------
-- C6: fetch/increment ordering and the JSR example
-- ------------------------------------------------------------------

/-- C6: the fetch/increment ordering itself holds — one `exec_step` from
PC = 0x3000 leaves PC = 0x3001 before dispatch — but the JSR consequence
fails: dispatching the JSR word 0x4805 (long form, offset +5) from the
post-increment state is a no-op, because the OP_JSR case of the switch is
an empty `break`.  R7 stays 0 instead of 0x3001 and PC stays 0x3001
instead of 0x3006. -/
theorem jsr_unimplemented :
    (exec_step jsr_state).reg R_PC = 0x3001 ∧
    dispatch (writeReg jsr_state R_PC 0x3001) 0x4805 = writeReg jsr_state R_PC 0x3001 ∧
    (dispatch (writeReg jsr_state R_PC 0x3001) 0x4805).reg 7 ≠ 0x3001 ∧
    (dispatch (writeReg jsr_state R_PC 0x3001) 0x4805).reg R_PC ≠ 0x3006 :=
  ⟨by decide, rfl, by decide, by decide⟩

-- ------------------------------------------------------------------
-- Loader lemmas
-- ------------------------------------------------------------------

theorem store_words_out (mem : Nat → Nat) (start : Nat) (ws : List Nat) (a : Nat)
    (h : a < start ∨ start + ws.length ≤ a) : store_words mem start ws a = mem a := by
  revert h
  induction ws generalizing mem start with
  | nil => intro h; rfl
  | cons w rest ih =>
      intro h
      simp only [List.length_cons] at h
      simp only [store_words]
      rw [ih _ _ (by omega)]
      have hne : a ≠ start := by omega
      simp [hne]

theorem store_words_get (mem : Nat → Nat) (start : Nat) (ws : List Nat) (i : Nat)
    (h : i < ws.length) : store_words mem start ws (start + i) = ws.getD i 0 % 65536 := by
  revert h
  induction ws generalizing mem start i with
  | nil => intro h; simp at h
  | cons w rest ih =>
      intro h
      simp only [store_words]
      cases i with
      | zero =>
          rw [store_words_out _ _ _ _ (Or.inl (by omega))]
          simp
      | succ j =>
          have hj : j < rest.length := by
            simp only [List.length_cons] at h
            omega
          rw [show start + (j + 1) = start + 1 + j by omega]
          rw [ih _ _ _ hj]
          simp

theorem swap_loop_out (mem : Nat → Nat) (start r a : Nat)
    (h : a < start ∨ start + r ≤ a) : swap_loop mem start r a = mem a := by
  revert h
  induction r generalizing mem with
  | zero => intro h; rfl
  | succ n ih =>
      intro h
      simp only [swap_loop]
      rw [ih _ (by omega)]
      have hne : a ≠ start + n := by omega
      simp [hne]

theorem swap_loop_at (mem : Nat → Nat) (start r k : Nat) (hk : k < r) :
    swap_loop mem start r (start + k) = swap16 (mem (start + k)) := by
  revert hk
  induction r generalizing mem with
  | zero => intro hk; omega
  | succ n ih =>
      intro hk
      simp only [swap_loop]
      by_cases hkn : k = n
      · subst hkn
        rw [swap_loop_out _ _ _ _ (Or.inr (by omega))]
        simp
      · rw [ih _ (by omega)]
        have hne : start + k ≠ start + n := by omega
        simp [hne]

-- Every getD of a list of 16-bit words is a 16-bit word (the default 0
-- included).
theorem getD_lt_of_mem_lt (l : List Nat) (h : ∀ w ∈ l, w < 65536) (j : Nat) :
    l.getD j 0 < 65536 := by
  rw [List.getD_eq_getElem?_getD]
  rcases hj : l[j]? with _ | w
  · simp
  · have hm : w ∈ l := List.getElem?_mem hj
    have := h w hm
    simp [hj]
    omega

-- ------------------------------------------------------------------
-- C8: the program loader
-- ------------------------------------------------------------------

/-- C8 as stated is false at origin 0: `uint16_t max_read = MEMORY_MAX -
origin` truncates 65536 to 0, so an image declaring origin 0 loads no words
at all, while the claim demands min(n, 65536 - 0) = n words.  Witness: a
file whose origin word is 0 followed by the single data word 0x3412 (which
byte swaps to 0x1234) leaves memory[0] at its old value 0. -/
theorem read_prog_file_counterexample :
    read_prog_file (fun _ => 0) [0, 0x3412] 0 = 0 ∧
    swap16 0x3412 = 0x1234 ∧
    read_prog_file (fun _ => 0) [0, 0x3412] 0 ≠ swap16 0x3412 := by decide

/-- C8 (amended): the loaded count is min(n, (65536 - origin) mod 2^16) —
identical to the claim for every origin ≥ 1, but zero when origin = 0,
because the 16-bit variable holding MEMORY_MAX - origin wraps to 0.  Within
that count, data word i is stored byte-swapped at memory[origin + i]
(consecutively, truncated at the top of memory, never wrapped), and every
address outside [origin, origin + count) keeps its previous contents. -/
theorem read_prog_file_correct (mem : Nat → Nat) (file : List Nat)
    (hw : ∀ w ∈ file, w < 65536) :
    (∀ i, i < min file.tail.length ((MEMORY_MAX - swap16 (file.headD 0)) % 65536) →
      read_prog_file mem file (swap16 (file.headD 0) + i) =
        swap16 (file.tail.getD i 0)) ∧
    (∀ a, a < swap16 (file.headD 0) ∨
        swap16 (file.headD 0) +
          min file.tail.length ((MEMORY_MAX - swap16 (file.headD 0)) % 65536) ≤ a →
      read_prog_file mem file a = mem a) := by
  simp only [read_prog_file]
  constructor
  · intro i hi
    have hcnt : min file.tail.length ((MEMORY_MAX - swap16 (file.headD 0)) % 65536) ≤
        file.tail.length := Nat.min_le_left _ _
    rw [swap_loop_at _ _ _ _ hi,
      store_words_get _ _ _ _ (by simp only [List.length_take]; omega)]
    have hget : (file.tail.take
        (min file.tail.length ((MEMORY_MAX - swap16 (file.headD 0)) % 65536))).getD i 0 =
        file.tail.getD i 0 := by
      rw [List.getD_eq_getElem?_getD, List.getD_eq_getElem?_getD,
        List.getElem?_take_of_lt hi]
    rw [hget]
    have hlt : file.tail.getD i 0 < 65536 :=
      getD_lt_of_mem_lt _ (fun w hwm => hw w (List.mem_of_mem_tail hwm)) i
    rw [Nat.mod_eq_of_lt hlt]
  · intro a ha
    rw [swap_loop_out _ _ _ _ ha]
    have hcnt : min file.tail.length ((MEMORY_MAX - swap16 (file.headD 0)) % 65536) ≤
        file.tail.length := Nat.min_le_left _ _
    rw [store_words_out _ _ _ _ (by simp only [List.length_take]; omega)]

/-- Witness for C8 (amended): the image with origin word 0x0030 (byte
swapped: 0x3000) and data words 0x3412, 0x7856 stores 0x1234 at 0x3000 and
leaves 0x2FFF untouched. -/
theorem read_prog_file_correct_witness :
    read_prog_file (fun _ => 0) [0x0030, 0x3412, 0x7856] (swap16 0x0030 + 0) =
      swap16 0x3412 ∧
    read_prog_file (fun _ => 0) [0x0030, 0x3412, 0x7856] 0x2FFF = 0 := by
  have h := read_prog_file_correct (fun _ => 0) [0x0030, 0x3412, 0x7856] (by decide)
  exact ⟨h.1 0 (by decide), h.2 0x2FFF (by decide)⟩

end LC3
